import Mathlib

/-!
Verification development for the PokeDB record server (Go sources
`record.go` / `server.go`).  Binary files are modelled as `List ℕ` of byte
values, the fixed-layout record codec as explicit little-endian
encode/decode functions, the store operations (`GetPokemon`,
`GetPokeName`, `GetTrainer`, `PostTrainer`, `PutTrainer`,
`DeleteTrainer`) as pure functions returning an `Except` result together
with the resulting trainer-file contents, the per-record lock manager as
a labelled transition system, and the framed session dispatch as a
function from a request string to the list of reply frames.
-/

/-! ## Byte-level helpers -/

/-- Zero-padded fixed-width byte field: Go fixed-size byte arrays such as
`Name [16]byte` filled with `copy(dst[:], src)` hold `src` truncated to the
width and padded with zero bytes. -/
def pad (l : List ℕ) (w : ℕ) : List ℕ :=
  l.take w ++ List.replicate (w - l.length) 0

/-- Little-endian two-byte encoding of a `uint16` value
(`binary.LittleEndian`). -/
def u16le (n : ℕ) : List ℕ :=
  [n % 256, n / 256 % 256]

/-- Little-endian `uint16` read of two bytes at `off` (missing bytes read
as zero; all reads in the development are in bounds). -/
def rdU16 (l : List ℕ) (off : ℕ) : ℕ :=
  l.getD off 0 + 256 * l.getD (off + 1) 0

/-- The `n` bytes of `l` starting at offset `off`. -/
def bytesAt (l : List ℕ) (off n : ℕ) : List ℕ :=
  (l.drop off).take n

/-- Go `uint16` subtraction `id - 1`: wraps at zero. -/
def u16sub1 (id : ℕ) : ℕ :=
  (id + 65535) % 65536

/-- Read errors of `binary.Read` on an `*os.File`: `io.ReadFull` yields
`io.EOF` when no byte is available at the offset and
`io.ErrUnexpectedEOF` when only part of the requested bytes are;
the remaining constructors model the `fmt.Errorf` errors produced by the
record library (`"trainer ID not found"`, `"file size is not a multiple
of record size"`, `"next ID out of range"`, `"pokemon ID not found"`). -/
inductive StoreErr where
  | eof
  | unexpEof
  | notFound
  | corrupt
  | idRange
  | pokeNotFound
deriving DecidableEq, Repr

deriving instance DecidableEq for Except

/-- `Seek(off, 0)` followed by `binary.Read` of an `n`-byte value:
returns the bytes when fully available, `io.EOF` when none are and
`io.ErrUnexpectedEOF` on a partial read. -/
def readExact (f : List ℕ) (off n : ℕ) : Except StoreErr (List ℕ) :=
  if n ≤ f.length - off then .ok (bytesAt f off n)
  else if f.length ≤ off then .error .eof
  else .error .unexpEof

/-- `Seek(off, 0)` followed by a write of `data`: overwrites the bytes at
`[off, off + len)` in place (all writes in the development are in
bounds). -/
def writeAt (f : List ℕ) (off : ℕ) (data : List ℕ) : List ℕ :=
  f.take off ++ data ++ f.drop (off + data.length)

/-! ## Record types and codec (`record.go` struct layouts) -/

/-- `PokeDisplay`: a trainer slot, `ID uint16` plus `Name [12]byte`. -/
structure PokeDisplay where
  ID : ℕ
  Name : List ℕ
deriving DecidableEq, Repr

/-- The Go zero value of `PokeDisplay` (an empty trainer slot). -/
def zeroDisplay : PokeDisplay :=
  ⟨0, List.replicate 12 0⟩

/-- `TrainerRec`: `ID uint16`, `Name [16]byte` and six pokemon slots;
102 bytes on disk, no padding. -/
structure TrainerRec where
  ID : ℕ
  Name : List ℕ
  Poke1 : PokeDisplay
  Poke2 : PokeDisplay
  Poke3 : PokeDisplay
  Poke4 : PokeDisplay
  Poke5 : PokeDisplay
  Poke6 : PokeDisplay
deriving DecidableEq, Repr

/-- The six slots of a trainer record in declaration order. -/
def TrainerRec.slots (t : TrainerRec) : List PokeDisplay :=
  [t.Poke1, t.Poke2, t.Poke3, t.Poke4, t.Poke5, t.Poke6]

/-- The Go zero value of `TrainerRec` (`var blank TrainerRec`). -/
def blankTrainer : TrainerRec :=
  ⟨0, List.replicate 16 0, zeroDisplay, zeroDisplay, zeroDisplay,
   zeroDisplay, zeroDisplay, zeroDisplay⟩

/-- `binary.Write` of a `PokeDisplay`: two little-endian id bytes then the
12 name bytes. -/
def encodeDisplay (d : PokeDisplay) : List ℕ :=
  u16le d.ID ++ pad d.Name 12

/-- `binary.Write` of a `TrainerRec`: fields in declaration order,
little-endian, 102 bytes. -/
def encodeTrainer (t : TrainerRec) : List ℕ :=
  u16le t.ID ++ (pad t.Name 16 ++ (encodeDisplay t.Poke1 ++
    (encodeDisplay t.Poke2 ++ (encodeDisplay t.Poke3 ++
    (encodeDisplay t.Poke4 ++ (encodeDisplay t.Poke5 ++
    encodeDisplay t.Poke6))))))

/-- `binary.Read` of a `PokeDisplay` from the head of a byte stream. -/
def decodeDisplayL (l : List ℕ) : PokeDisplay :=
  ⟨rdU16 l 0, (l.drop 2).take 12⟩

/-- `binary.Read` of a `TrainerRec` from a 102-byte chunk: sequential
field decode, the numeric offsets being the cumulative field widths. -/
def decodeTrainer (l : List ℕ) : TrainerRec :=
  ⟨rdU16 l 0, (l.drop 2).take 16,
   decodeDisplayL (l.drop 18), decodeDisplayL (l.drop 32),
   decodeDisplayL (l.drop 46), decodeDisplayL (l.drop 60),
   decodeDisplayL (l.drop 74), decodeDisplayL (l.drop 88)⟩

/-- `PokeRec`: the 96-byte species record of `record.go`. -/
structure PokeRec where
  ID : ℕ
  Name : List ℕ
  Type1 : List ℕ
  Type2 : List ℕ
  HP : ℕ
  Attack : ℕ
  Defense : ℕ
  SpAtk : ℕ
  SpDef : ℕ
  Speed : ℕ
  Generation : ℕ
  IsLegendary : ℕ
  Color : List ℕ
  HasGender : ℕ
  PrMale : ℕ
  EggGroup1 : List ℕ
  EggGroup2 : List ℕ
  HasMegaEvo : ℕ
  HeightM : ℕ
  WeightKg : ℕ
  CatchRate : ℕ
  BodyStyle : List ℕ
deriving DecidableEq, Repr

/-- `binary.Read` of a `PokeRec` from a 96-byte chunk: sequential field
decode at the cumulative field offsets of the struct layout. -/
def decodePoke (l : List ℕ) : PokeRec :=
  ⟨rdU16 l 0, bytesAt l 2 12, bytesAt l 14 9, bytesAt l 23 9,
   l.getD 32 0, l.getD 33 0, l.getD 34 0, l.getD 35 0,
   l.getD 36 0, l.getD 37 0, l.getD 38 0, l.getD 39 0,
   bytesAt l 40 7, l.getD 47 0, l.getD 48 0,
   bytesAt l 49 13, bytesAt l 62 11, l.getD 73 0,
   rdU16 l 74, rdU16 l 76, l.getD 78 0, bytesAt l 79 17⟩

/-! ## Store operations (`record.go`) -/

/-- `GetPokemon`: seek to `(id-1)*96` in the species file and read one
record. -/
def GetPokemon (poke_file : List ℕ) (id : ℕ) : Except StoreErr PokeRec :=
  (readExact poke_file (u16sub1 id * 96) 96).map decodePoke

/-- `GetPokeName`: seek to `(id-1)*96 + 2` and read the 12 name bytes. -/
def GetPokeName (poke_file : List ℕ) (id : ℕ) : Except StoreErr (List ℕ) :=
  readExact poke_file (u16sub1 id * 96 + 2) 12

/-- `GetTrainer`: seek to `(id-1)*102`, read one record; a decoded id of
zero (deleted or never used) is reported as `"trainer ID not found"`. -/
def GetTrainer (trainer_file : List ℕ) (id : ℕ) : Except StoreErr TrainerRec :=
  match readExact trainer_file (u16sub1 id * 102) 102 with
  | .error e => .error e
  | .ok chunk =>
    let trainer := decodeTrainer chunk
    if trainer.ID = 0 then .error .notFound else .ok trainer

/-- One iteration of the slot-resolution loop shared by `PostTrainer` and
`PutTrainer`: a failed name lookup aborts with `"pokemon ID not found"`,
otherwise the slot is paired with the resolved name. -/
def resolveCons (r : Except StoreErr (List ℕ)) (pid : ℕ)
    (rest : Except StoreErr (List PokeDisplay)) : Except StoreErr (List PokeDisplay) :=
  match r with
  | .error _ => .error .pokeNotFound
  | .ok nm =>
    match rest with
    | .error e => .error e
    | .ok ds => .ok (⟨pid, nm⟩ :: ds)

/-- The slot-resolution loop of `PostTrainer` and `PutTrainer`: pokemon
ids are resolved in order, stopping at the first failure; the callers pass
at most six ids. -/
def resolveSlots (poke_file : List ℕ) : List ℕ → Except StoreErr (List PokeDisplay)
  | [] => .ok []
  | pid :: rest => resolveCons (GetPokeName poke_file pid) pid (resolveSlots poke_file rest)

/-- Slot `i` of a resolved slot list; unfilled slots keep the Go zero
value. -/
def slot6 (ds : List PokeDisplay) (i : ℕ) : PokeDisplay :=
  ds.getD i zeroDisplay

/-- `PostTrainer`: validate the file size, allocate
`next = fileSize/102 + 1` (failing above 65535), resolve the pokemon
slots, then append the new record at the end of the file.  Returns the
result paired with the trainer file after the call; every error path
leaves the file untouched. -/
def PostTrainer (trainer_file poke_file : List ℕ) (name : List ℕ)
    (pokemon : List ℕ) : Except StoreErr ℕ × List ℕ :=
  let file_size := trainer_file.length
  if file_size % 102 ≠ 0 then (.error .corrupt, trainer_file)
  else
    let next := file_size / 102 + 1
    if 65535 < next then (.error .idRange, trainer_file)
    else
      match resolveSlots poke_file (pokemon.take 6) with
      | .error e => (.error e, trainer_file)
      | .ok ds =>
        let trainer : TrainerRec :=
          ⟨next, pad name 16, slot6 ds 0, slot6 ds 1, slot6 ds 2,
           slot6 ds 3, slot6 ds 4, slot6 ds 5⟩
        (.ok next, trainer_file ++ encodeTrainer trainer)

/-- `PutTrainer`: read the existing record (any failure is reported as
`"trainer ID not found"`), validate the file size, resolve the new
slots (unfilled slots zeroed), and overwrite the record in place,
preserving id and name. -/
def PutTrainer (trainer_file poke_file : List ℕ) (id : ℕ)
    (pokemon : List ℕ) : Except StoreErr Unit × List ℕ :=
  match GetTrainer trainer_file id with
  | .error _ => (.error .notFound, trainer_file)
  | .ok old_data =>
    if trainer_file.length % 102 ≠ 0 then (.error .corrupt, trainer_file)
    else
      match resolveSlots poke_file (pokemon.take 6) with
      | .error e => (.error e, trainer_file)
      | .ok ds =>
        let trainer : TrainerRec :=
          ⟨old_data.ID, old_data.Name, slot6 ds 0, slot6 ds 1, slot6 ds 2,
           slot6 ds 3, slot6 ds 4, slot6 ds 5⟩
        (.ok (), writeAt trainer_file (u16sub1 id * 102) (encodeTrainer trainer))

/-- `DeleteTrainer`: read the existing record (errors propagate
unchanged), validate the file size, and zero-fill the record in place. -/
def DeleteTrainer (trainer_file : List ℕ) (id : ℕ) :
    Except StoreErr Unit × List ℕ :=
  match GetTrainer trainer_file id with
  | .error e => (.error e, trainer_file)
  | .ok _ =>
    if trainer_file.length % 102 ≠ 0 then (.error .corrupt, trainer_file)
    else
      (.ok (), writeAt trainer_file (u16sub1 id * 102) (encodeTrainer blankTrainer))

/-! ## Framed transport (`ReallyWrite` / `ReallyRead`) -/

/-- `binary.BigEndian.PutUint32`: the four network-byte-order bytes of a
`uint32` value. -/
def be32 (n : ℕ) : List ℕ :=
  [n / 2 ^ 24 % 256, n / 2 ^ 16 % 256, n / 2 ^ 8 % 256, n % 256]

/-- `binary.BigEndian.Uint32` of a four-byte buffer. -/
def be32val (b : List ℕ) : ℕ :=
  b.getD 0 0 * 2 ^ 24 + b.getD 1 0 * 2 ^ 16 + b.getD 2 0 * 2 ^ 8 + b.getD 3 0

/-- `ReallyWrite`: emit the 4-byte big-endian `uint32` length prefix
(`uint32(len(data))` wraps at `2^32`) followed by the message bytes,
looping until all bytes are flushed. -/
def ReallyWrite (msg : List ℕ) : List ℕ :=
  be32 (msg.length % 2 ^ 32) ++ msg

/-- `ReallyRead`: loop until the 4-byte length prefix is complete, then
loop until that many payload bytes are consumed; end-of-stream during
either loop is an error.  Returns the message and the unread rest of the
stream. -/
def ReallyRead (stream : List ℕ) : Except StoreErr (List ℕ × List ℕ) :=
  if stream.length < 4 then .error .eof
  else
    let length := be32val (stream.take 4)
    let rest := stream.drop 4
    if rest.length < length then .error .eof
    else .ok (rest.take length, rest.drop length)

/-! ### Basic codec lemmas -/

theorem pad_length (l : List ℕ) (w : ℕ) : (pad l w).length = w := by
  simp [pad]
  omega

theorem pad_eq_self {l : List ℕ} {w : ℕ} (h : l.length = w) : pad l w = l := by
  simp [pad, h, List.take_of_length_le (le_of_eq h)]

theorem encodeDisplay_length (d : PokeDisplay) : (encodeDisplay d).length = 14 := by
  simp [encodeDisplay, u16le, pad_length]

theorem encodeTrainer_length (t : TrainerRec) : (encodeTrainer t).length = 102 := by
  simp [encodeTrainer, u16le, pad_length, encodeDisplay_length]

theorem u16_roundtrip {n : ℕ} (h : n < 65536) :
    n % 256 + 256 * (n / 256 % 256) = n := by
  omega

theorem u16sub1_eq {k : ℕ} (h1 : 1 ≤ k) (h2 : k < 65536) :
    u16sub1 k = k - 1 := by
  unfold u16sub1
  omega

/-! ### Decode/encode round trip -/

/-- Well-formed slot: a `uint16` id and a full 12-byte name. -/
def WFDisplay (d : PokeDisplay) : Prop :=
  d.ID < 65536 ∧ d.Name.length = 12

/-- Well-formed trainer record: a `uint16` id, a full 16-byte name and six
well-formed slots. -/
def WFTrainer (t : TrainerRec) : Prop :=
  t.ID < 65536 ∧ t.Name.length = 16 ∧ WFDisplay t.Poke1 ∧ WFDisplay t.Poke2 ∧
    WFDisplay t.Poke3 ∧ WFDisplay t.Poke4 ∧ WFDisplay t.Poke5 ∧ WFDisplay t.Poke6

theorem drop2_cons (m x y : ℕ) (w : List ℕ) : (x :: y :: w).drop (m + 2) = w.drop m := rfl

theorem dropSlot {nm : List ℕ} (h : nm.length = 12) (x y : ℕ) (r : List ℕ) :
    (x :: y :: (nm ++ r)).drop 14 = r := by
  rw [show (14 : ℕ) = 12 + 2 from rfl, drop2_cons, List.drop_left' h]

theorem dd_head {i : ℕ} (hid : i < 65536) {nm : List ℕ} (h : nm.length = 12)
    (r : List ℕ) :
    decodeDisplayL (i % 256 :: i / 256 % 256 :: (nm ++ r)) = ⟨i, nm⟩ := by
  unfold decodeDisplayL rdU16
  have h2 : ((i % 256 :: i / 256 % 256 :: (nm ++ r)).drop 2) = nm ++ r := rfl
  rw [h2, List.take_left' h]
  simp [List.getD]
  omega

theorem dd_last {i : ℕ} (hid : i < 65536) {nm : List ℕ} (h : nm.length = 12) :
    decodeDisplayL (i % 256 :: i / 256 % 256 :: nm) = ⟨i, nm⟩ := by
  unfold decodeDisplayL rdU16
  have h2 : ((i % 256 :: i / 256 % 256 :: nm).drop 2) = nm := rfl
  rw [h2, List.take_of_length_le (le_of_eq h)]
  simp [List.getD]
  omega

theorem decodeTrainer_build {id : ℕ} (hid : id < 65536) {nm : List ℕ}
    (hnm : nm.length = 16) (r : List ℕ) :
    decodeTrainer (id % 256 :: id / 256 % 256 :: (nm ++ r)) =
      ⟨id, nm, decodeDisplayL r, decodeDisplayL (r.drop 14),
       decodeDisplayL ((r.drop 14).drop 14),
       decodeDisplayL (((r.drop 14).drop 14).drop 14),
       decodeDisplayL ((((r.drop 14).drop 14).drop 14).drop 14),
       decodeDisplayL (((((r.drop 14).drop 14).drop 14).drop 14).drop 14)⟩ := by
  have t1 : (id % 256 :: id / 256 % 256 :: (nm ++ r)).drop 18 = r := by
    rw [show (18 : ℕ) = 16 + 2 from rfl, drop2_cons, List.drop_left' hnm]
  have t2 : (id % 256 :: id / 256 % 256 :: (nm ++ r)).drop 32 = r.drop 14 := by
    calc (id % 256 :: id / 256 % 256 :: (nm ++ r)).drop 32
        = ((id % 256 :: id / 256 % 256 :: (nm ++ r)).drop 18).drop 14 := by
          rw [List.drop_drop]
    _ = r.drop 14 := by rw [t1]
  have t3 : (id % 256 :: id / 256 % 256 :: (nm ++ r)).drop 46 = (r.drop 14).drop 14 := by
    calc (id % 256 :: id / 256 % 256 :: (nm ++ r)).drop 46
        = ((id % 256 :: id / 256 % 256 :: (nm ++ r)).drop 32).drop 14 := by
          rw [List.drop_drop]
    _ = (r.drop 14).drop 14 := by rw [t2]
  have t4 : (id % 256 :: id / 256 % 256 :: (nm ++ r)).drop 60 =
      ((r.drop 14).drop 14).drop 14 := by
    calc (id % 256 :: id / 256 % 256 :: (nm ++ r)).drop 60
        = ((id % 256 :: id / 256 % 256 :: (nm ++ r)).drop 46).drop 14 := by
          rw [List.drop_drop]
    _ = ((r.drop 14).drop 14).drop 14 := by rw [t3]
  have t5 : (id % 256 :: id / 256 % 256 :: (nm ++ r)).drop 74 =
      (((r.drop 14).drop 14).drop 14).drop 14 := by
    calc (id % 256 :: id / 256 % 256 :: (nm ++ r)).drop 74
        = ((id % 256 :: id / 256 % 256 :: (nm ++ r)).drop 60).drop 14 := by
          rw [List.drop_drop]
    _ = (((r.drop 14).drop 14).drop 14).drop 14 := by rw [t4]
  have t6 : (id % 256 :: id / 256 % 256 :: (nm ++ r)).drop 88 =
      ((((r.drop 14).drop 14).drop 14).drop 14).drop 14 := by
    calc (id % 256 :: id / 256 % 256 :: (nm ++ r)).drop 88
        = ((id % 256 :: id / 256 % 256 :: (nm ++ r)).drop 74).drop 14 := by
          rw [List.drop_drop]
    _ = ((((r.drop 14).drop 14).drop 14).drop 14).drop 14 := by rw [t5]
  have hID : rdU16 (id % 256 :: id / 256 % 256 :: (nm ++ r)) 0 = id := by
    unfold rdU16
    simp [List.getD]
    omega
  have hName : ((id % 256 :: id / 256 % 256 :: (nm ++ r)).drop 2).take 16 = nm := by
    have e : ((id % 256 :: id / 256 % 256 :: (nm ++ r)).drop 2) = nm ++ r := rfl
    rw [e, List.take_left' hnm]
  unfold decodeTrainer
  rw [t1, t2, t3, t4, t5, t6, hID, hName]

theorem decode_encode {t : TrainerRec} (h : WFTrainer t) :
    decodeTrainer (encodeTrainer t) = t := by
  obtain ⟨id, nm, p1, p2, p3, p4, p5, p6⟩ := t
  obtain ⟨i1, n1⟩ := p1
  obtain ⟨i2, n2⟩ := p2
  obtain ⟨i3, n3⟩ := p3
  obtain ⟨i4, n4⟩ := p4
  obtain ⟨i5, n5⟩ := p5
  obtain ⟨i6, n6⟩ := p6
  obtain ⟨hid, hnm, ⟨h1, hn1⟩, ⟨h2, hn2⟩, ⟨h3, hn3⟩, ⟨h4, hn4⟩, ⟨h5, hn5⟩, ⟨h6, hn6⟩⟩ := h
  have henc : encodeTrainer ⟨id, nm, ⟨i1, n1⟩, ⟨i2, n2⟩, ⟨i3, n3⟩, ⟨i4, n4⟩,
      ⟨i5, n5⟩, ⟨i6, n6⟩⟩ =
      id % 256 :: id / 256 % 256 :: (nm ++
        (i1 % 256 :: i1 / 256 % 256 :: (n1 ++
        (i2 % 256 :: i2 / 256 % 256 :: (n2 ++
        (i3 % 256 :: i3 / 256 % 256 :: (n3 ++
        (i4 % 256 :: i4 / 256 % 256 :: (n4 ++
        (i5 % 256 :: i5 / 256 % 256 :: (n5 ++
        (i6 % 256 :: i6 / 256 % 256 :: n6)))))))))))) := by
    simp [encodeTrainer, encodeDisplay, u16le, pad_eq_self hnm, pad_eq_self hn1,
      pad_eq_self hn2, pad_eq_self hn3, pad_eq_self hn4, pad_eq_self hn5,
      pad_eq_self hn6]
  rw [henc, decodeTrainer_build hid hnm]
  rw [dropSlot hn1, dropSlot hn2, dropSlot hn3, dropSlot hn4, dropSlot hn5]
  rw [dd_head h1 hn1, dd_head h2 hn2, dd_head h3 hn3, dd_head h4 hn4,
    dd_head h5 hn5, dd_last h6 hn6]

/-! ### File-surgery lemmas -/

theorem writeAt_length {f : List ℕ} {off : ℕ} {data : List ℕ}
    (h : off + data.length ≤ f.length) :
    (writeAt f off data).length = f.length := by
  simp [writeAt]
  omega

theorem bytesAt_writeAt {f : List ℕ} {off : ℕ} {data : List ℕ}
    (h : off + data.length ≤ f.length) :
    bytesAt (writeAt f off data) off data.length = data := by
  unfold bytesAt writeAt
  rw [List.append_assoc, List.drop_left' (by simp; omega), List.take_left' rfl]

theorem writeAt_eq_parts (f : List ℕ) (off : ℕ) (data : List ℕ) :
    writeAt f off data = f.take off ++ data ++ f.drop (off + data.length) := rfl

theorem readExact_ok {f : List ℕ} {off n : ℕ} {chunk : List ℕ}
    (hn : 0 < n) (h : readExact f off n = .ok chunk) :
    off + n ≤ f.length ∧ chunk = bytesAt f off n ∧ chunk.length = n := by
  unfold readExact at h
  by_cases hc : n ≤ f.length - off
  · simp [hc] at h
    refine ⟨by omega, h.symm, ?_⟩
    rw [← h]
    simp [bytesAt]
    omega
  · simp [hc] at h
    by_cases he : f.length ≤ off <;> simp [he] at h

theorem readExact_of_le {f : List ℕ} {off n : ℕ} (h : off + n ≤ f.length) :
    readExact f off n = .ok (bytesAt f off n) := by
  unfold readExact
  rw [if_pos (by omega)]

/-! ### GetTrainer inversion -/

theorem getTrainer_ok {tf : List ℕ} {id : ℕ} {t : TrainerRec}
    (h : GetTrainer tf id = .ok t) :
    u16sub1 id * 102 + 102 ≤ tf.length ∧
      t = decodeTrainer (bytesAt tf (u16sub1 id * 102) 102) ∧ t.ID ≠ 0 := by
  unfold GetTrainer at h
  rcases hre : readExact tf (u16sub1 id * 102) 102 with e | chunk
  · rw [hre] at h
    simp at h
  · rw [hre] at h
    obtain ⟨hb, hchunk, _⟩ := readExact_ok (by omega) hre
    by_cases hz : (decodeTrainer chunk).ID = 0
    · simp [hz] at h
    · simp [hz] at h
      exact ⟨hb, by rw [← h, hchunk], by rw [← h]; exact hz⟩

theorem getTrainer_of_chunk {tf : List ℕ} {id : ℕ}
    (hle : u16sub1 id * 102 + 102 ≤ tf.length)
    (hz : (decodeTrainer (bytesAt tf (u16sub1 id * 102) 102)).ID ≠ 0) :
    GetTrainer tf id = .ok (decodeTrainer (bytesAt tf (u16sub1 id * 102) 102)) := by
  unfold GetTrainer
  rw [readExact_of_le (by omega)]
  simp [hz]

theorem getTrainer_notFound_of_zero {tf : List ℕ} {id : ℕ}
    (hle : u16sub1 id * 102 + 102 ≤ tf.length)
    (hz : (decodeTrainer (bytesAt tf (u16sub1 id * 102) 102)).ID = 0) :
    GetTrainer tf id = .error .notFound := by
  unfold GetTrainer
  rw [readExact_of_le (by omega)]
  simp [hz]

/-! ### The zero record -/

theorem encode_blank : encodeTrainer blankTrainer = List.replicate 102 0 := by decide

theorem decode_zero_id : (decodeTrainer (List.replicate 102 0)).ID = 0 := by decide

/-! ### Resolution-loop lemmas -/

/-- The name a pokemon id resolves to (meaningful on ids for which
`GetPokeName` succeeds). -/
def pokeNameOf (poke_file : List ℕ) (pid : ℕ) : List ℕ :=
  match GetPokeName poke_file pid with
  | .ok nm => nm
  | .error _ => List.replicate 12 0

theorem resolveSlots_cons (pf : List ℕ) (a : ℕ) (l : List ℕ) :
    resolveSlots pf (a :: l) = resolveCons (GetPokeName pf a) a (resolveSlots pf l) := rfl

/-- The slot list a fully resolvable id list resolves to: each id paired
with its resolved name. -/
def resolvedSlots (pf : List ℕ) (ids : List ℕ) : List PokeDisplay :=
  ids.map fun pid => ⟨pid, pokeNameOf pf pid⟩

theorem resolveSlots_ok {pf : List ℕ} {ids : List ℕ}
    (h : ∀ x ∈ ids, ∃ nm, GetPokeName pf x = .ok nm) :
    resolveSlots pf ids = .ok (resolvedSlots pf ids) := by
  unfold resolvedSlots
  induction ids with
  | nil => rfl
  | cons a l ih =>
    obtain ⟨nm, hnm⟩ := h a (List.mem_cons_self a l)
    have hr := ih fun x hx => h x (List.mem_cons_of_mem a hx)
    have hpn : pokeNameOf pf a = nm := by
      unfold pokeNameOf
      rw [hnm]
    rw [resolveSlots_cons, hnm, hr, List.map_cons, hpn]
    rfl

theorem resolveSlots_fail {pf : List ℕ} {ids : List ℕ}
    (h : ∃ x ∈ ids, ∃ e, GetPokeName pf x = .error e) :
    resolveSlots pf ids = .error .pokeNotFound := by
  induction ids with
  | nil => simp at h
  | cons a l ih =>
    obtain ⟨x, hx, e, he⟩ := h
    rw [resolveSlots_cons]
    rcases List.mem_cons.mp hx with rfl | hxl
    · rw [he]
      rfl
    · rcases ha : GetPokeName pf a with ea | nma
      · rfl
      · rw [ih ⟨x, hxl, e, he⟩]
        rfl

theorem resolveSlots_length {pf : List ℕ} {ids : List ℕ} {ds : List PokeDisplay}
    (h : resolveSlots pf ids = .ok ds) : ds.length = ids.length := by
  induction ids generalizing ds with
  | nil =>
    simp only [resolveSlots] at h
    simp at h
    simp [← h]
  | cons a l ih =>
    rw [resolveSlots_cons] at h
    rcases ha : GetPokeName pf a with ea | nma
    · rw [ha] at h
      simp [resolveCons] at h
    · rw [ha] at h
      rcases hr : resolveSlots pf l with er | dsr
      · rw [hr] at h
        simp [resolveCons] at h
      · rw [hr] at h
        simp [resolveCons] at h
        rw [← h]
        simp [ih hr]

/-! ## Per-record lock manager (`record.go`, `RecordLock`)

Each trainer id owns one `RecordLock` (lazily created by
`GetRecordLock`); the four per-id operations touch only that id's lock,
so one id's lock is modelled in isolation.  All mutations of
`NumReading`, `NumWriting` and `WrQueue` happen under the per-lock mutex
`Lock`, and `Cond.Wait` releases that mutex, so every interleaving of
`RLockRecord`, `RUnlockRecord`, `WLockRecord` and `WUnlockRecord` is a
sequence of the five atomic critical sections below: a reader acquiring
(the exit of `RLockRecord`'s wait loop plus `NumReading++`), a reader
releasing, a writer enqueuing its marker (`WrQueue.PushBack`), a writer
acquiring (the exit of `WLockRecord`'s wait loop plus
`WrQueue.Remove; NumWriting = 1`), and a writer releasing.  Counters are
Go `int`s, hence `ℤ`.  Queue markers are the `*list.Element` values
returned by `PushBack`; `nextMarker` is a ghost allocation counter
expressing that each `PushBack` returns a fresh element. -/

/-- The mutable state of one `RecordLock` (plus the ghost marker
allocator). -/
structure LockSt where
  NumReading : ℤ
  NumWriting : ℤ
  WrQueue : List ℕ
  nextMarker : ℕ
deriving DecidableEq, Repr

/-- A freshly allocated `RecordLock` (`NewRecordLock`). -/
def initLock : LockSt :=
  ⟨0, 0, [], 0⟩

/-- The observable events on one `RecordLock`. -/
inductive LockEv where
| rAcquire
| rRelease
| wEnqueue (m : ℕ)
| wAcquire (m : ℕ)
| wRelease
deriving DecidableEq, Repr

/-- One atomic critical section of the lock manager:

* `rAcquire` — `RLockRecord` leaves its wait loop (no active writer and
  an empty writer queue) and increments `NumReading`;
* `rRelease` — `RUnlockRecord` decrements `NumReading` when positive;
* `wEnqueue` — `WLockRecord` pushes a fresh marker on `WrQueue`;
* `wAcquire` — `WLockRecord` leaves its wait loop (its marker at the
  head, no readers, no writer), removes the marker and sets
  `NumWriting = 1`;
* `wRelease` — `WUnlockRecord` sets `NumWriting = 0`. -/
inductive LockStep : LockSt → LockEv → LockSt → Prop where
| rAcquire {s : LockSt} :
    ¬ 0 < s.NumWriting → s.WrQueue = [] →
    LockStep s .rAcquire ⟨s.NumReading + 1, s.NumWriting, s.WrQueue, s.nextMarker⟩
| rRelease {s : LockSt} :
    LockStep s .rRelease
      ⟨if 0 < s.NumReading then s.NumReading - 1 else s.NumReading,
       s.NumWriting, s.WrQueue, s.nextMarker⟩
| wEnqueue {s : LockSt} :
    LockStep s (.wEnqueue s.nextMarker)
      ⟨s.NumReading, s.NumWriting, s.WrQueue ++ [s.nextMarker], s.nextMarker + 1⟩
| wAcquire {s : LockSt} {m : ℕ} :
    s.WrQueue.head? = some m → s.NumReading = 0 → s.NumWriting = 0 →
    LockStep s (.wAcquire m) ⟨s.NumReading, 1, s.WrQueue.erase m, s.nextMarker⟩
| wRelease {s : LockSt} :
    LockStep s .wRelease ⟨s.NumReading, 0, s.WrQueue, s.nextMarker⟩

/-- `LockPath s tr t`: the trace `tr` of critical sections leads from
state `s` to state `t`. -/
inductive LockPath : LockSt → List LockEv → LockSt → Prop where
| nil {s : LockSt} : LockPath s [] s
| cons {s s' t : LockSt} {e : LockEv} {tr : List LockEv} :
    LockStep s e s' → LockPath s' tr t → LockPath s (e :: tr) t

/-! ### Lock-manager invariants -/

/-- Counter invariant: readers never negative, `NumWriting` a boolean,
and an active writer excludes all readers. -/
def LockInv (s : LockSt) : Prop :=
  0 ≤ s.NumReading ∧ (s.NumWriting = 0 ∨ s.NumWriting = 1) ∧
    (s.NumWriting = 1 → s.NumReading = 0)

/-- Queue invariant: markers are strictly increasing along the queue and
all below the ghost allocator. -/
def QueueInv (s : LockSt) : Prop :=
  s.WrQueue.Pairwise (· < ·) ∧ ∀ x ∈ s.WrQueue, x < s.nextMarker

theorem lockInv_init : LockInv initLock :=
  ⟨le_refl 0, Or.inl rfl, fun _ => rfl⟩

theorem queueInv_init : QueueInv initLock :=
  ⟨List.Pairwise.nil, fun x hx => absurd hx (List.not_mem_nil x)⟩

theorem lockInv_step {s t : LockSt} {e : LockEv} (hs : LockStep s e t)
    (h : LockInv s) : LockInv t := by
  unfold LockInv at h ⊢
  cases hs with
  | rAcquire hnw hq => dsimp only; omega
  | rRelease => dsimp only; split <;> omega
  | wEnqueue => dsimp only; omega
  | wAcquire hh hr0 hw0 => dsimp only; omega
  | wRelease => dsimp only; omega

theorem queueInv_step {s t : LockSt} {e : LockEv} (hs : LockStep s e t)
    (h : QueueInv s) : QueueInv t := by
  obtain ⟨hsort, hlt⟩ := h
  cases hs with
  | rAcquire hnw hq => exact ⟨hsort, hlt⟩
  | rRelease => exact ⟨hsort, hlt⟩
  | wEnqueue =>
    constructor
    · dsimp only
      rw [List.pairwise_append]
      exact ⟨hsort, List.pairwise_singleton _ _, fun a ha b hb => by
        rw [List.mem_singleton] at hb
        rw [hb]
        exact hlt a ha⟩
    · intro x hx
      dsimp only at hx ⊢
      rcases List.mem_append.mp hx with h1 | h2
      · exact lt_trans (hlt x h1) (Nat.lt_succ_self _)
      · rw [List.mem_singleton] at h2
        rw [h2]
        exact Nat.lt_succ_self _
  | wAcquire hh hr0 hw0 =>
    exact ⟨List.Pairwise.sublist (List.erase_sublist _ _) hsort,
      fun x hx => hlt x (List.mem_of_mem_erase hx)⟩
  | wRelease => exact ⟨hsort, hlt⟩

theorem lockInv_path {s t : LockSt} {tr : List LockEv} (hp : LockPath s tr t)
    (h : LockInv s) : LockInv t := by
  induction hp with
  | nil => exact h
  | cons hs _ ih => exact ih (lockInv_step hs h)

theorem queueInv_path {s t : LockSt} {tr : List LockEv} (hp : LockPath s tr t)
    (h : QueueInv s) : QueueInv t := by
  induction hp with
  | nil => exact h
  | cons hs _ ih => exact ih (queueInv_step hs h)

/-! ### Trace lemmas for the writer queue -/

/-- Splitting a path at a designated event. -/
theorem lockPath_split {s t : LockSt} {B C : List LockEv} {e : LockEv}
    (hp : LockPath s (B ++ e :: C) t) :
    ∃ u u', LockPath s B u ∧ LockStep u e u' ∧ LockPath u' C t := by
  induction B generalizing s with
  | nil =>
    cases hp with
    | cons hs hrest => exact ⟨s, _, LockPath.nil, hs, hrest⟩
  | cons b B' ih =>
    cases hp with
    | cons hs hrest =>
      obtain ⟨u, u', h1, h2, h3⟩ := ih hrest
      exact ⟨u, u', LockPath.cons hs h1, h2, h3⟩

/-- The ghost allocator is monotone along any path. -/
theorem nextMarker_mono {s t : LockSt} {tr : List LockEv} (hp : LockPath s tr t) :
    s.nextMarker ≤ t.nextMarker := by
  induction hp with
  | nil => exact le_refl _
  | cons hs _ ih =>
    refine le_trans ?_ ih
    cases hs <;> simp

/-- Any marker enqueued along a path is at least the ghost allocator at
the start of the path. -/
theorem enqueued_ge {s t : LockSt} {tr : List LockEv} {m : ℕ}
    (hp : LockPath s tr t) (hm : LockEv.wEnqueue m ∈ tr) :
    s.nextMarker ≤ m := by
  induction hp with
  | nil => simp at hm
  | cons hs hrest ih =>
    rcases List.mem_cons.mp hm with heq | hmem
    · cases hs <;> simp_all
    · refine le_trans ?_ (ih hmem)
      cases hs <;> simp

/-- A marker that is in the queue at the start of a path and gone at the
end was removed by its own `wAcquire` event, and the path decomposes at
that event. -/
theorem marker_exit {s t : LockSt} {tr : List LockEv} {m : ℕ}
    (hp : LockPath s tr t) (hin : m ∈ s.WrQueue) (hout : m ∉ t.WrQueue) :
    ∃ B C u u', tr = B ++ LockEv.wAcquire m :: C ∧ LockPath s B u ∧
      LockStep u (.wAcquire m) u' ∧ LockPath u' C t := by
  induction hp with
  | nil => exact absurd hin hout
  | @cons s s' t e tr hs hrest ih =>
    by_cases hmem : m ∈ s'.WrQueue
    · obtain ⟨B, C, u, u', hB, h1, h2, h3⟩ := ih hmem hout
      exact ⟨e :: B, C, u, u', by rw [hB, List.cons_append],
        LockPath.cons hs h1, h2, h3⟩
    · cases hs with
      | rAcquire hnw hq =>
        rw [hq] at hin
        simp at hin
      | rRelease => exact absurd hin hmem
      | wEnqueue =>
        exact absurd (List.mem_append_left _ hin) hmem
      | @wAcquire m' hh hr0 hw0 =>
        by_cases hmm : m = m'
        · subst hmm
          exact ⟨[], tr, s, _, rfl, LockPath.nil, LockStep.wAcquire hh hr0 hw0, hrest⟩
        · exact absurd ((List.mem_erase_of_ne hmm).mpr hin) hmem
      | wRelease => exact absurd hin hmem

/-- A writer that is active at the start of a path and inactive at its
end released in between. -/
theorem writer_released {s t : LockSt} {tr : List LockEv}
    (hp : LockPath s tr t) (h1 : s.NumWriting = 1) (h2 : ¬ 0 < t.NumWriting) :
    LockEv.wRelease ∈ tr := by
  induction hp with
  | nil => omega
  | @cons s s' t e tr hs hrest ih =>
    cases hs with
    | rAcquire hnw hq => omega
    | rRelease => exact List.mem_cons_of_mem _ (ih h1 h2)
    | wEnqueue => exact List.mem_cons_of_mem _ (ih h1 h2)
    | @wAcquire m' hh hr0 hw0 => omega
    | wRelease => exact List.mem_cons_self _ _

/-! ## Request matchers (`server.go` regexps)

The request regexps of `record.go` are anchored (`^...$`) and built from
the literal command word, single-space separators, `\S+` (one or more
non-whitespace runes), `\d+` (digit runs) and `[1-9][0-9]*`.  Splitting
the request at space characters therefore yields exactly the capture
structure of the regexps; each matcher below is the translation of one
regexp over that token list. -/

/-- `[0-9]` (the `\d` class). -/
def isDigitC (c : Char) : Bool :=
  48 ≤ c.toNat && c.toNat ≤ 57

/-- The Go regexp whitespace class `\s = [\t\n\f\r ]`. -/
def isGoSpace (c : Char) : Bool :=
  c.toNat = 32 || c.toNat = 9 || c.toNat = 10 || c.toNat = 12 || c.toNat = 13

/-- `\d+`: a non-empty digit run. -/
def isDigitsTok (t : List Char) : Bool :=
  !t.isEmpty && t.all isDigitC

/-- `[1-9][0-9]*`: a positive decimal without leading zero. -/
def isPosTok : List Char → Bool
  | [] => false
  | c :: rest => (49 ≤ c.toNat && c.toNat ≤ 57) && rest.all isDigitC

/-- `\S+`: a non-empty run of non-whitespace runes. -/
def isNameTok (t : List Char) : Bool :=
  !t.isEmpty && t.all fun c => !isGoSpace c

/-- Split a character list at every space character (the separator the
anchored regexps use between captures). -/
def splitSp : List Char → List Char → List (List Char)
  | [], acc => [acc.reverse]
  | c :: rest, acc =>
    if c.toNat = 32 then acc.reverse :: splitSp rest []
    else splitSp rest (c :: acc)

/-- The space-separated tokens of a request frame. -/
def reqTokens (s : String) : List (List Char) :=
  splitSp s.data []

/-- `ReqGetPokeID`: `^REQ_POKE_ID ([1-9][0-9]*)$`. -/
def pokeCaps (s : String) : Option (List Char) :=
  match reqTokens s with
  | [cmd, d] => if cmd = "REQ_POKE_ID".data ∧ isPosTok d then some d else none
  | _ => none

/-- `ReqGetTrainerID`: `^REQ_TRAINER_ID ([1-9][0-9]*)$`. -/
def trainerCaps (s : String) : Option (List Char) :=
  match reqTokens s with
  | [cmd, d] => if cmd = "REQ_TRAINER_ID".data ∧ isPosTok d then some d else none
  | _ => none

/-- `ReqPostTrainer`:
`^POST_TRAINER (\S+)(?: (\d+))?(?: (\d+))?(?: (\d+))?(?: (\d+))?(?: (\d+))?(?: (\d+))?$`
— note the six pokemon-id groups are all optional, so a name alone
matches. -/
def postCaps (s : String) : Option (List Char × List (List Char)) :=
  match reqTokens s with
  | cmd :: name :: ids =>
    if cmd = "POST_TRAINER".data ∧ isNameTok name ∧ ids.length ≤ 6 ∧
        ids.all isDigitsTok then some (name, ids) else none
  | _ => none

/-- `ReqPutTrainer`:
`^PUT_TRAINER (\d+)(?: (\d+))?(?: (\d+))?(?: (\d+))?(?: (\d+))?(?: (\d+))?(?: (\d+))?$`. -/
def putCaps (s : String) : Option (List Char × List (List Char)) :=
  match reqTokens s with
  | cmd :: idTok :: ids =>
    if cmd = "PUT_TRAINER".data ∧ isDigitsTok idTok ∧ ids.length ≤ 6 ∧
        ids.all isDigitsTok then some (idTok, ids) else none
  | _ => none

/-- `ReqDelTrainer`: `^DEL_TRAINER (\d+)$`. -/
def delCaps (s : String) : Option (List Char) :=
  match reqTokens s with
  | [cmd, d] => if cmd = "DEL_TRAINER".data ∧ isDigitsTok d then some d else none
  | _ => none

/-- `ReqGetLogN`: `^REQ_LOG_FILE (\d+)$`. -/
def logCaps (s : String) : Option (List Char) :=
  match reqTokens s with
  | [cmd, d] => if cmd = "REQ_LOG_FILE".data ∧ isDigitsTok d then some d else none
  | _ => none

/-! ## Numeric parsing and UTF-8 (`strconv.Atoi`, Go string bytes) -/

/-- The decimal value of a digit token. -/
def digitsVal (t : List Char) : ℕ :=
  t.foldl (fun a c => 10 * a + (c.toNat - 48)) 0

/-- `strconv.Atoi` on a digit token (64-bit build): values above
`MaxInt64` yield the clamped maximum together with an error
(`ErrRange`). -/
def goAtoi (t : List Char) : ℕ × Bool :=
  if digitsVal t ≤ 2 ^ 63 - 1 then (digitsVal t, false)
  else (2 ^ 63 - 1, true)

/-- Go `uint16(n)` conversion. -/
def u16cast (n : ℕ) : ℕ :=
  n % 65536

/-- The UTF-8 bytes of one rune. -/
def utf8EncodeChar (c : Char) : List ℕ :=
  let n := c.toNat
  if n < 128 then [n]
  else if n < 2048 then [192 + n / 64, 128 + n % 64]
  else if n < 65536 then [224 + n / 4096, 128 + n / 64 % 64, 128 + n % 64]
  else [240 + n / 262144, 128 + n / 4096 % 64, 128 + n / 64 % 64, 128 + n % 64]

/-- The bytes of a Go string (UTF-8); `len(name)` in Go is the length of
this list. -/
def strBytes (t : List Char) : List ℕ :=
  (t.map utf8EncodeChar).flatten

/-! ## Session replies (`server.go` process functions)

A reply frame is either a status token, the JSON encoding of a record
(kept abstract as the record itself — the byte-level JSON text never
feeds back into the system), or log text. -/

inductive Reply where
| token (s : String)
| jsonPoke (r : PokeRec)
| jsonTrainer (r : TrainerRec)
| logText (s : String)
deriving DecidableEq, Repr

/-- `process_req_get_poke` after id extraction: `io.EOF` maps to
`OUT_OF_BOUNDS`, any other error to `SERVER_ERROR`, success to the JSON
frame. -/
def processGetPoke (poke_file : List ℕ) (id : ℕ) : List Reply :=
  match GetPokemon poke_file id with
  | .error .eof => [.token "OUT_OF_BOUNDS"]
  | .error _ => [.token "SERVER_ERROR"]
  | .ok rec => [.jsonPoke rec]

/-- `process_req_get_trainer` after id extraction: `io.EOF` and
`"trainer ID not found"` map to `OUT_OF_BOUNDS`, other errors to
`SERVER_ERROR`. -/
def processGetTrainer (trainer_file : List ℕ) (id : ℕ) : List Reply :=
  match GetTrainer trainer_file id with
  | .error .eof => [.token "OUT_OF_BOUNDS"]
  | .error .notFound => [.token "OUT_OF_BOUNDS"]
  | .error _ => [.token "SERVER_ERROR"]
  | .ok rec => [.jsonTrainer rec]

/-- The record-streaming loop of `process_req_get_trainer_all`: walk ids
from `idx`, skipping logically deleted records, stopping at the first
end-of-file; `fuel` bounds the walk (a well-sized file of `n` records is
exhausted after `n + 1` probes). -/
def scanFrom (trainer_file : List ℕ) : ℕ → ℕ → List Reply
  | 0, _ => []
  | fuel + 1, idx =>
    match GetTrainer trainer_file (u16cast idx) with
    | .error .notFound => scanFrom trainer_file fuel (idx + 1)
    | .error _ => []
    | .ok t => .jsonTrainer t :: scanFrom trainer_file fuel (idx + 1)

/-- `process_req_get_trainer_all`: empty file and misaligned file are
rejected up front; otherwise `SENDING`, the live records in id order, and
`DONE` (or `OUT_OF_BOUNDS` when no record was live). -/
def processGetAll (trainer_file : List ℕ) : List Reply :=
  if trainer_file.length = 0 then [.token "OUT_OF_BOUNDS"]
  else if trainer_file.length % 102 ≠ 0 then [.token "FILE_ERROR"]
  else
    let recs := scanFrom trainer_file (trainer_file.length / 102 + 1) 1
    .token "SENDING" :: recs ++
      [if recs.isEmpty then .token "OUT_OF_BOUNDS" else .token "DONE"]

/-- `process_req_post_trainer` after the regexp match, given the name
capture and id captures: a name longer than 15 bytes yields `LONG_NAME`;
an id `strconv.Atoi` range error yields `SERVER_ERROR`; an empty id list
yields no reply at all (the function returns without writing); otherwise
`PostTrainer` runs, any error mapping to `BAD_POST` and success to the
decimal new id. -/
def processPost (poke_file trainer_file : List ℕ) (name : List Char)
    (ids : List (List Char)) : List Reply × List ℕ :=
  if 15 < (strBytes name).length then ([.token "LONG_NAME"], trainer_file)
  else if (ids.map goAtoi).any (fun p => p.2) then
    ([.token "SERVER_ERROR"], trainer_file)
  else
    let pokemon := ids.map fun t => u16cast (goAtoi t).1
    if pokemon.isEmpty then ([], trainer_file)
    else
      match PostTrainer trainer_file poke_file (strBytes name) pokemon with
      | (.error _, tf) => ([.token "BAD_POST"], tf)
      | (.ok id, tf) =>
        (if id ≠ 0 then [.token (Nat.repr id)] else [], tf)

/-- The error text of the `BAD_PUT.<reason>` reply
(`fmt.Sprintf("BAD_PUT.%s", err)`). -/
def errMsg : StoreErr → String
  | .eof => "EOF"
  | .unexpEof => "unexpected EOF"
  | .notFound => "trainer ID not found"
  | .corrupt => "file size is not a multiple of record size"
  | .idRange => "next ID out of range"
  | .pokeNotFound => "pokemon ID not found"

/-- `process_req_put_trainer` after the regexp match: `Atoi` range
errors yield `SERVER_ERROR`; otherwise `PutTrainer` runs, errors mapping
to `BAD_PUT.<reason>` and success to `GOOD_PUT` (unless the id parsed to
zero, in which case the success path writes no reply). -/
def processPut (poke_file trainer_file : List ℕ) (idTok : List Char)
    (ids : List (List Char)) : List Reply × List ℕ :=
  if (goAtoi idTok).2 then ([.token "SERVER_ERROR"], trainer_file)
  else if (ids.map goAtoi).any (fun p => p.2) then
    ([.token "SERVER_ERROR"], trainer_file)
  else
    let id := u16cast (goAtoi idTok).1
    let pokemon := ids.map fun t => u16cast (goAtoi t).1
    match PutTrainer trainer_file poke_file id pokemon with
    | (.error e, tf) => ([.token ("BAD_PUT." ++ errMsg e)], tf)
    | (.ok _, tf) => (if id ≠ 0 then [.token "GOOD_PUT"] else [], tf)

/-- `process_req_delete_trainer` after id extraction: any error maps to
`OUT_OF_BOUNDS`, success to `DELETED`. -/
def processDel (trainer_file : List ℕ) (id : ℕ) : List Reply × List ℕ :=
  match DeleteTrainer trainer_file id with
  | (.error _, tf) => ([.token "OUT_OF_BOUNDS"], tf)
  | (.ok _, tf) => ([.token "DELETED"], tf)

/-- Split the log text at newlines (`strings.Split(s, "\n")`). -/
def splitNl : List Char → List Char → List (List Char)
  | [], acc => [acc.reverse]
  | c :: rest, acc =>
    if c.toNat = 10 then acc.reverse :: splitNl rest []
    else splitNl rest (c :: acc)

/-- Join lines with newlines (`strings.Join(lines, "\n")`). -/
def joinNl : List (List Char) → List Char
  | [] => []
  | [l] => l
  | l :: rest => l ++ Char.ofNat 10 :: joinNl rest

/-- `LogReadN` over the log text: an empty log reports
`"Log file empty."`; otherwise a trailing newline is trimmed, the text is
split at newlines, and the last `n` lines are joined back,
newline-terminated. -/
def LogReadN (data : List Char) (n : ℕ) : List Char :=
  if data.isEmpty then "Log file empty.".data
  else
    let trimmed := if data.getLast? = some (Char.ofNat 10) then data.dropLast else data
    let lines := splitNl trimmed []
    let start := if n < lines.length then lines.length - n else 0
    joinNl (lines.drop start) ++ [Char.ofNat 10]

/-- `process_req_get_log` after parsing `n`. -/
def processLog (log_data : List Char) (n : ℕ) : List Reply :=
  [.logText (String.mk (LogReadN log_data n))]

/-- One iteration of the `handle_client` request loop: the `EXIT` frame
ends the session with no reply; otherwise the request is dispatched on
the first matching regexp in switch order, the default branch answering
`CLIENT_REQ_INVALID`.  Returns the reply frames written for this request
together with the trainer file after it. -/
def handleRequest (poke_file trainer_file : List ℕ) (log_data : List Char)
    (req : String) : List Reply × List ℕ :=
  if req = "EXIT" then ([], trainer_file)
  else
    match pokeCaps req with
    | some d => (processGetPoke poke_file (u16cast (goAtoi d).1), trainer_file)
    | none =>
      match trainerCaps req with
      | some d => (processGetTrainer trainer_file (u16cast (goAtoi d).1), trainer_file)
      | none =>
        if req = "REQ_TRAINER_ALL" then (processGetAll trainer_file, trainer_file)
        else
          match postCaps req with
          | some (name, ids) => processPost poke_file trainer_file name ids
          | none =>
            match putCaps req with
            | some (idTok, ids) => processPut poke_file trainer_file idTok ids
            | none =>
              match delCaps req with
              | some d => processDel trainer_file (u16cast (goAtoi d).1)
              | none =>
                match logCaps req with
                | some d => (processLog log_data (goAtoi d).1, trainer_file)
                | none => ([.token "CLIENT_REQ_INVALID"], trainer_file)

/-! ## The §4.E command grammar, as the specification states it

Modelled from the spec: the grammar of §4.E, in which both
`POST_TRAINER <name> (<digits>){1..6}` and
`PUT_TRAINER <digits> (<digits>){1..6}` carry at least one species id —
while the implementation regexps `ReqPostTrainer` and `ReqPutTrainer`
make all six id groups optional.  Used solely to compare the specified
grammar with the implemented dispatch. -/
def specGrammarMatch (s : String) : Bool :=
  (pokeCaps s).isSome || (trainerCaps s).isSome || s = "REQ_TRAINER_ALL" ||
    (match postCaps s with
     | some (_, ids) => decide (1 ≤ ids.length)
     | none => false) ||
    (match putCaps s with
     | some (_, ids) => decide (1 ≤ ids.length)
     | none => false) ||
    (delCaps s).isSome || (logCaps s).isSome || s = "EXIT"

/-! ### Step inversion helpers -/

theorem wEnqueue_inv {s t : LockSt} {m : ℕ} (h : LockStep s (.wEnqueue m) t) :
    m = s.nextMarker ∧
      t = ⟨s.NumReading, s.NumWriting, s.WrQueue ++ [m], m + 1⟩ := by
  cases h
  exact ⟨rfl, rfl⟩

theorem wAcquire_inv {s t : LockSt} {m : ℕ} (h : LockStep s (.wAcquire m) t) :
    s.WrQueue.head? = some m ∧ s.NumReading = 0 ∧ s.NumWriting = 0 ∧
      t = ⟨s.NumReading, 1, s.WrQueue.erase m, s.nextMarker⟩ := by
  cases h with
  | wAcquire hh hr0 hw0 => exact ⟨hh, hr0, hw0, rfl⟩

theorem rAcquire_inv {s t : LockSt} (h : LockStep s .rAcquire t) :
    ¬ 0 < s.NumWriting ∧ s.WrQueue = [] ∧
      t = ⟨s.NumReading + 1, s.NumWriting, s.WrQueue, s.nextMarker⟩ := by
  cases h with
  | rAcquire hnw hq => exact ⟨hnw, hq, rfl⟩

/-! ## Claim theorems: lock manager -/

/-- C1: for every trainer id, in every state reachable by any
interleaving of `RLockRecord(id)`, `RUnlockRecord(id)`, `WLockRecord(id)`
and `WUnlockRecord(id)` on that id's `RecordLock`, `NumWriting = 1`
implies `NumReading = 0` — an active writer never coexists with a
reader. -/
theorem C1_writer_excludes_readers (tr : List LockEv) (s : LockSt)
    (hp : LockPath initLock tr s) (hw : s.NumWriting = 1) :
    s.NumReading = 0 :=
  (lockInv_path hp lockInv_init).2.2 hw

/-- Witness for C1 at the concrete trace enqueue-then-acquire. -/
theorem C1_witness :
    LockPath initLock [LockEv.wEnqueue 0, LockEv.wAcquire 0]
      (⟨0, 1, [], 1⟩ : LockSt) ∧ (⟨0, 1, [], 1⟩ : LockSt).NumReading = 0 := by
  have hpath : LockPath initLock [LockEv.wEnqueue 0, LockEv.wAcquire 0]
      (⟨0, 1, [], 1⟩ : LockSt) := by
    refine LockPath.cons LockStep.wEnqueue (LockPath.cons ?_ LockPath.nil)
    exact LockStep.wAcquire rfl rfl rfl
  exact ⟨hpath, C1_writer_excludes_readers _ _ hpath rfl⟩

/-- C10: every lock-manager operation preserves `NumReading ≥ 0` and
`NumWriting ∈ {0, 1}` in every reachable state, and `RUnlockRecord` on a
record whose `NumReading` is already 0 leaves `NumReading` at 0 rather
than driving it negative. -/
theorem C10_counters_bounded :
    (∀ (tr : List LockEv) (s : LockSt), LockPath initLock tr s →
      0 ≤ s.NumReading ∧ (s.NumWriting = 0 ∨ s.NumWriting = 1)) ∧
    (∀ s t : LockSt, LockStep s .rRelease t → s.NumReading = 0 →
      t.NumReading = 0) := by
  constructor
  · intro tr s hp
    have h := lockInv_path hp lockInv_init
    exact ⟨h.1, h.2.1⟩
  · intro s t hst h0
    cases hst with
    | rRelease =>
      dsimp only
      rw [if_neg (by omega)]
      exact h0

/-- Witness for C10 at a concrete reachable state and a concrete
unmatched `RUnlockRecord`. -/
theorem C10_witness :
    LockPath initLock [LockEv.rAcquire] (⟨1, 0, [], 0⟩ : LockSt) ∧
      (0 ≤ (1 : ℤ) ∧ ((0 : ℤ) = 0 ∨ (0 : ℤ) = 1)) ∧
      LockStep (⟨0, 0, [], 0⟩ : LockSt) .rRelease (⟨0, 0, [], 0⟩ : LockSt) ∧
      (⟨0, 0, [], 0⟩ : LockSt).NumReading = 0 := by
  have hpath : LockPath initLock [LockEv.rAcquire] (⟨1, 0, [], 0⟩ : LockSt) :=
    LockPath.cons (LockStep.rAcquire (by decide) rfl) LockPath.nil
  have hstep : LockStep (⟨0, 0, [], 0⟩ : LockSt) .rRelease (⟨0, 0, [], 0⟩ : LockSt) := by
    have h := @LockStep.rRelease (⟨0, 0, [], 0⟩ : LockSt)
    simpa using h
  refine ⟨hpath, C10_counters_bounded.1 _ _ hpath, hstep,
    C10_counters_bounded.2 _ _ hstep rfl⟩

/-- C2: among `WLockRecord` contenders for the same trainer id the
writer lock is granted in the order the markers were enqueued in
`WrQueue` (a writer acquires only once every earlier-enqueued writer has
acquired), and an `RLockRecord` granted at any point is granted only
after every writer queued at any earlier moment has both acquired and
released. -/
theorem C2_writer_fifo_and_reader_wait :
    (∀ (A B C : List LockEv) (m1 m2 : ℕ) (s : LockSt),
      LockPath initLock
        (A ++ LockEv.wEnqueue m1 :: (B ++ LockEv.wAcquire m2 :: C)) s →
      LockEv.wEnqueue m2 ∈ B → LockEv.wAcquire m1 ∈ B) ∧
    (∀ (tr1 tr2 tr3 : List LockEv) (s1 s2 : LockSt) (m : ℕ),
      LockPath initLock tr1 s1 →
      LockPath s1 (tr2 ++ LockEv.rAcquire :: tr3) s2 →
      m ∈ s1.WrQueue →
      ∃ B C, tr2 = B ++ LockEv.wAcquire m :: C ∧ LockEv.wRelease ∈ C) := by
  constructor
  · intro A B C m1 m2 s hp henq
    obtain ⟨u, u', hA, hEstep, hrest⟩ := lockPath_split hp
    obtain ⟨hm1, hu'⟩ := wEnqueue_inv hEstep
    obtain ⟨v, v', hB, hAstep, _⟩ := lockPath_split hrest
    have hge : u'.nextMarker ≤ m2 := enqueued_ge hB henq
    have hm12 : m1 < m2 := by
      rw [hu'] at hge
      dsimp only at hge
      omega
    have hmem : m1 ∈ u'.WrQueue := by
      rw [hu']
      exact List.mem_append_right _ (List.mem_singleton_self m1)
    have qv : QueueInv v :=
      queueInv_path hB (queueInv_step hEstep (queueInv_path hA queueInv_init))
    obtain ⟨hhead, _, _, _⟩ := wAcquire_inv hAstep
    have hnotin : m1 ∉ v.WrQueue := by
      intro hin
      rcases hq : v.WrQueue with _ | ⟨a, rest⟩
      · rw [hq] at hin
        simp at hin
      · rw [hq] at hhead hin
        simp at hhead
      -- head is m2; sortedness puts m1 after it, contradicting m1 < m2
        have hsorted := qv.1
        rw [hq, hhead] at hsorted
        rcases List.mem_cons.mp hin with h | h
        · omega
        · have := (List.pairwise_cons.mp hsorted).1 m1 h
          omega
    obtain ⟨B1, C1, w, w', hBdec, _, _, _⟩ := marker_exit hB hmem hnotin
    rw [hBdec]
    exact List.mem_append_right _ (List.mem_cons_self _ _)
  · intro tr1 tr2 tr3 s1 s2 m hp1 hp2 hmem
    obtain ⟨v, v', hB, hrstep, _⟩ := lockPath_split hp2
    obtain ⟨hnw, hq, _⟩ := rAcquire_inv hrstep
    have hnotin : m ∉ v.WrQueue := by
      rw [hq]
      simp
    obtain ⟨B1, C1, u, u', hdec, hB1, hacq, hC1⟩ := marker_exit hB hmem hnotin
    obtain ⟨_, _, _, hu'⟩ := wAcquire_inv hacq
    have hw1 : u'.NumWriting = 1 := by
      rw [hu']
    exact ⟨B1, C1, hdec, writer_released hC1 hw1 hnw⟩

/-- Witness for C2: two queued writers acquiring in enqueue order, and a
reader granted only after the queued writer acquired and released. -/
theorem C2_witness :
    (LockPath initLock
      ([] ++ LockEv.wEnqueue 0 ::
        ([LockEv.wEnqueue 1, LockEv.wAcquire 0, LockEv.wRelease] ++
          LockEv.wAcquire 1 :: [])) (⟨0, 1, [], 2⟩ : LockSt) ∧
      LockEv.wAcquire 0 ∈ [LockEv.wEnqueue 1, LockEv.wAcquire 0, LockEv.wRelease]) ∧
    (LockPath initLock [LockEv.wEnqueue 0] (⟨0, 0, [0], 1⟩ : LockSt) ∧
      (0 : ℕ) ∈ (⟨0, 0, [0], 1⟩ : LockSt).WrQueue ∧
      ∃ B C, [LockEv.wAcquire 0, LockEv.wRelease] = B ++ LockEv.wAcquire 0 :: C ∧
        LockEv.wRelease ∈ C) := by
  have hp1 : LockPath initLock
      ([] ++ LockEv.wEnqueue 0 ::
        ([LockEv.wEnqueue 1, LockEv.wAcquire 0, LockEv.wRelease] ++
          LockEv.wAcquire 1 :: [])) (⟨0, 1, [], 2⟩ : LockSt) := by
    exact LockPath.cons LockStep.wEnqueue (LockPath.cons LockStep.wEnqueue
      (LockPath.cons (LockStep.wAcquire rfl rfl rfl)
        (LockPath.cons LockStep.wRelease
          (LockPath.cons (LockStep.wAcquire rfl rfl rfl) LockPath.nil))))
  have hp2a : LockPath initLock [LockEv.wEnqueue 0] (⟨0, 0, [0], 1⟩ : LockSt) :=
    LockPath.cons LockStep.wEnqueue LockPath.nil
  have hp2b : LockPath (⟨0, 0, [0], 1⟩ : LockSt)
      ([LockEv.wAcquire 0, LockEv.wRelease] ++ LockEv.rAcquire :: [])
      (⟨1, 0, [], 1⟩ : LockSt) := by
    exact LockPath.cons (LockStep.wAcquire rfl rfl rfl)
      (LockPath.cons LockStep.wRelease
        (LockPath.cons (LockStep.rAcquire (by decide) rfl) LockPath.nil))
  refine ⟨⟨hp1, ?_⟩, hp2a, by decide, ?_⟩
  · exact C2_writer_fifo_and_reader_wait.1 [] _ [] 0 1 _ hp1 (by decide)
  · exact C2_writer_fifo_and_reader_wait.2 _ _ [] _ _ 0 hp2a hp2b (by decide)

/-! ### Byte-bound and length helpers -/

theorem getD_lt_256 {l : List ℕ} (h : ∀ b ∈ l, b < 256) (i : ℕ) :
    l.getD i 0 < 256 := by
  rw [List.getD_eq_getElem?_getD]
  rcases hx : l[i]? with _ | x
  · simp
  · simp
    exact h x (List.getElem?_mem hx)

theorem rdU16_lt {l : List ℕ} (h : ∀ b ∈ l, b < 256) (off : ℕ) :
    rdU16 l off < 65536 := by
  unfold rdU16
  have h0 := getD_lt_256 h off
  have h1 := getD_lt_256 h (off + 1)
  omega

theorem bytesAt_subset {l : List ℕ} {off n : ℕ} {b : ℕ}
    (h : b ∈ bytesAt l off n) : b ∈ l :=
  List.mem_of_mem_drop (List.mem_of_mem_take h)

theorem decodeTrainer_name_length {chunk : List ℕ} (h : chunk.length = 102) :
    (decodeTrainer chunk).Name.length = 16 := by
  simp [decodeTrainer]
  omega

theorem pokeNameOf_length (pf : List ℕ) (pid : ℕ) :
    (pokeNameOf pf pid).length = 12 := by
  unfold pokeNameOf
  rcases h : GetPokeName pf pid with e | nm
  · simp
  · unfold GetPokeName at h
    exact (readExact_ok (by omega) h).2.2

theorem slot6_WF {ds : List PokeDisplay}
    (h : ∀ d ∈ ds, WFDisplay d) (i : ℕ) : WFDisplay (slot6 ds i) := by
  unfold slot6
  rw [List.getD_eq_getElem?_getD]
  rcases hx : ds[i]? with _ | d
  · simp [WFDisplay, zeroDisplay]
  · simp
    exact h d (List.getElem?_mem hx)

theorem slot6_list {ds : List PokeDisplay} (h : ds.length ≤ 6) :
    [slot6 ds 0, slot6 ds 1, slot6 ds 2, slot6 ds 3, slot6 ds 4, slot6 ds 5] =
      ds ++ List.replicate (6 - ds.length) zeroDisplay :=
  match ds, h with
  | [], _ => rfl
  | [_], _ => rfl
  | [_, _], _ => rfl
  | [_, _, _], _ => rfl
  | [_, _, _, _], _ => rfl
  | [_, _, _, _, _], _ => rfl
  | [_, _, _, _, _, _], _ => rfl
  | _ :: _ :: _ :: _ :: _ :: _ :: _ :: _, h => absurd h (by simp)

/-! ## Claim theorems: record store -/

/-- C3: on a trainer file whose size is a multiple of the record size,
`PostTrainer` with resolvable species ids succeeds when
`fileSize/recordSize + 1 ≤ 65535`, returning exactly that id and growing
the file by one record so that the returned id equals the new
`fileSize/recordSize`; above 65535 it fails and writes nothing. -/
theorem C3_post_allocates (tf pf name pokemon : List ℕ)
    (hsize : tf.length % 102 = 0) :
    (tf.length / 102 + 1 ≤ 65535 →
      (∀ x ∈ pokemon, ∃ nm, GetPokeName pf x = .ok nm) →
      (PostTrainer tf pf name pokemon).1 = .ok (tf.length / 102 + 1) ∧
      (PostTrainer tf pf name pokemon).2.length = tf.length + 102 ∧
      tf.length / 102 + 1 = (PostTrainer tf pf name pokemon).2.length / 102) ∧
    (65535 < tf.length / 102 + 1 →
      (PostTrainer tf pf name pokemon).1 = .error .idRange ∧
      (PostTrainer tf pf name pokemon).2 = tf) := by
  constructor
  · intro hnext hres
    have hro := @resolveSlots_ok pf (pokemon.take 6)
      (fun x hx => hres x (List.mem_of_mem_take hx))
    simp only [PostTrainer]
    rw [if_neg (by omega), if_neg (by omega), hro]
    refine ⟨rfl, ?_, ?_⟩
    · simp [encodeTrainer_length]
    · simp [encodeTrainer_length]
  · intro hover
    simp only [PostTrainer]
    rw [if_neg (by omega), if_pos (by omega)]
    exact ⟨rfl, rfl⟩

/-- Witness for C3: a post on the empty file allocates id 1 and grows
the file to one record; a post on a full file of 65535 records fails
with the id-range error and leaves the file unchanged. -/
theorem C3_witness :
    ((PostTrainer [] (List.replicate 96 1) [65] [1]).1 = .ok 1 ∧
      (PostTrainer [] (List.replicate 96 1) [65] [1]).2.length = 0 + 102) ∧
    ((PostTrainer (List.replicate 6684570 0) (List.replicate 96 1) [65] [1]).1 =
        .error .idRange ∧
      (PostTrainer (List.replicate 6684570 0) (List.replicate 96 1) [65] [1]).2 =
        List.replicate 6684570 0) := by
  constructor
  · have h := (C3_post_allocates [] (List.replicate 96 1) [65] [1] (by simp)).1
      (by simp)
      (fun x hx => by
        simp at hx
        subst hx
        exact ⟨List.replicate 12 1, by decide⟩)
    exact ⟨by simpa using h.1, by simpa using h.2.1⟩
  · have h := (C3_post_allocates (List.replicate 6684570 0) (List.replicate 96 1)
      [65] [1] (by rw [List.length_replicate])).2
      (by rw [List.length_replicate]; norm_num)
    exact h

/-- C4: whenever `DeleteTrainer(k)` succeeds, the record at offset
`(k-1)*recordSize` is overwritten with the all-zero record, the file
size is unchanged, and a subsequent `GetTrainer(k)` returns the
not-found error. -/
theorem C4_delete_zeroes (tf : List ℕ) (k : ℕ) (hk1 : 1 ≤ k)
    (hk2 : k ≤ 65535) (hok : (DeleteTrainer tf k).1 = .ok ()) :
    (DeleteTrainer tf k).2 =
      tf.take ((k - 1) * 102) ++ List.replicate 102 0 ++
        tf.drop ((k - 1) * 102 + 102) ∧
    (DeleteTrainer tf k).2.length = tf.length ∧
    GetTrainer (DeleteTrainer tf k).2 k = .error .notFound := by
  have hsub : u16sub1 k = k - 1 := u16sub1_eq hk1 (by omega)
  rcases hg : GetTrainer tf k with e | t
  · unfold DeleteTrainer at hok
    rw [hg] at hok
    exact absurd hok (by simp)
  · obtain ⟨hle, _, _⟩ := getTrainer_ok hg
    by_cases hsz : tf.length % 102 = 0
    · have hdel : DeleteTrainer tf k =
          (.ok (), writeAt tf (u16sub1 k * 102) (encodeTrainer blankTrainer)) := by
        unfold DeleteTrainer
        rw [hg, if_neg (by omega)]
      have hlen : u16sub1 k * 102 + (encodeTrainer blankTrainer).length ≤ tf.length := by
        rw [encodeTrainer_length]
        exact hle
      refine ⟨?_, ?_, ?_⟩
      · rw [hdel]
        rw [writeAt_eq_parts, encode_blank, hsub]
        simp
      · rw [hdel]
        exact writeAt_length hlen
      · have hchunk : bytesAt (writeAt tf (u16sub1 k * 102) (encodeTrainer blankTrainer))
            (u16sub1 k * 102) 102 = List.replicate 102 0 := by
          have h := bytesAt_writeAt hlen
          rw [encodeTrainer_length] at h
          rw [h, encode_blank]
        rw [hdel]
        refine getTrainer_notFound_of_zero ?_ ?_
        · rw [writeAt_length hlen]
          exact hle
        · rw [hchunk]
          exact decode_zero_id
    · unfold DeleteTrainer at hok
      rw [hg, if_pos (by omega)] at hok
      exact absurd hok (by simp)

/-- Witness for C4: deleting trainer 1 from a one-record file zero-fills
that record, preserves the size and makes `GetTrainer 1` report
not-found. -/
theorem C4_witness :
    (DeleteTrainer (u16le 1 ++ List.replicate 100 0) 1).1 = .ok () ∧
    (DeleteTrainer (u16le 1 ++ List.replicate 100 0) 1).2.length =
      (u16le 1 ++ List.replicate 100 0).length ∧
    GetTrainer (DeleteTrainer (u16le 1 ++ List.replicate 100 0) 1).2 1 =
      .error .notFound := by
  have hok : (DeleteTrainer (u16le 1 ++ List.replicate 100 0) 1).1 = .ok () := by
    decide
  have h := C4_delete_zeroes (u16le 1 ++ List.replicate 100 0) 1 (by decide)
    (by decide) hok
  exact ⟨hok, h.2.1, h.2.2⟩

/-- The record `PutTrainer` writes back: preserved id and name, the
resolved slots, unfilled slots zeroed. -/
def mkPut (old : TrainerRec) (ds : List PokeDisplay) : TrainerRec :=
  ⟨old.ID, old.Name, slot6 ds 0, slot6 ds 1, slot6 ds 2, slot6 ds 3,
   slot6 ds 4, slot6 ds 5⟩

theorem resolvedSlots_WF {pf : List ℕ} {L : List ℕ}
    (hLv : ∀ x ∈ L, x < 65536) :
    ∀ d ∈ resolvedSlots pf L, WFDisplay d := by
  intro d hd
  unfold resolvedSlots at hd
  rw [List.mem_map] at hd
  obtain ⟨pid, hpid, rfl⟩ := hd
  refine ⟨hLv pid hpid, ?_⟩
  dsimp only
  exact pokeNameOf_length pf pid

/-- C5: for a live trainer id and a fully resolvable species list of at
most six ids, `PutTrainer` succeeds and a subsequent `GetTrainer`
returns a record with the old id and name whose six slots are the
resolved list padded with zero slots. -/
theorem C5_put_updates_slots (tf pf : List ℕ) (k : ℕ) (L : List ℕ)
    (old : TrainerRec)
    (hbytes : ∀ b ∈ tf, b < 256)
    (hsize : tf.length % 102 = 0)
    (hlive : GetTrainer tf k = .ok old)
    (hL : L.length ≤ 6) (hLv : ∀ x ∈ L, x < 65536)
    (hres : ∀ x ∈ L, ∃ nm, GetPokeName pf x = .ok nm) :
    (PutTrainer tf pf k L).1 = .ok () ∧
    ∃ t', GetTrainer (PutTrainer tf pf k L).2 k = .ok t' ∧
      t'.ID = old.ID ∧ t'.Name = old.Name ∧
      t'.slots = resolvedSlots pf L ++ List.replicate (6 - L.length) zeroDisplay := by
  have htake : L.take 6 = L := List.take_of_length_le hL
  have hro : resolveSlots pf (L.take 6) = .ok (resolvedSlots pf L) := by
    rw [htake]
    exact resolveSlots_ok hres
  obtain ⟨hle, hdec, hnz⟩ := getTrainer_ok hlive
  have hput : PutTrainer tf pf k L =
      (.ok (), writeAt tf (u16sub1 k * 102)
        (encodeTrainer (mkPut old (resolvedSlots pf L)))) := by
    unfold PutTrainer
    rw [hlive]
    dsimp only
    rw [if_neg (by omega), hro]
    rfl
  have hchunklen : (bytesAt tf (u16sub1 k * 102) 102).length = 102 := by
    simp [bytesAt]
    omega
  have holdid : old.ID < 65536 := by
    rw [hdec]
    have h := @rdU16_lt (bytesAt tf (u16sub1 k * 102) 102)
      (fun b hb => hbytes b (bytesAt_subset hb)) 0
    simpa [decodeTrainer] using h
  have holdname : old.Name.length = 16 := by
    rw [hdec]
    exact decodeTrainer_name_length hchunklen
  have hwf : WFTrainer (mkPut old (resolvedSlots pf L)) := by
    have hds := @resolvedSlots_WF pf L hLv
    exact ⟨holdid, holdname, slot6_WF hds 0, slot6_WF hds 1, slot6_WF hds 2,
      slot6_WF hds 3, slot6_WF hds 4, slot6_WF hds 5⟩
  have hwlen : u16sub1 k * 102 +
      (encodeTrainer (mkPut old (resolvedSlots pf L))).length ≤ tf.length := by
    rw [encodeTrainer_length]
    exact hle
  have hchunk : bytesAt (writeAt tf (u16sub1 k * 102)
        (encodeTrainer (mkPut old (resolvedSlots pf L))))
      (u16sub1 k * 102) 102 = encodeTrainer (mkPut old (resolvedSlots pf L)) := by
    have h := bytesAt_writeAt hwlen
    rw [encodeTrainer_length] at h
    exact h
  have hget : GetTrainer (writeAt tf (u16sub1 k * 102)
        (encodeTrainer (mkPut old (resolvedSlots pf L)))) k =
      .ok (mkPut old (resolvedSlots pf L)) := by
    have h := @getTrainer_of_chunk
      (writeAt tf (u16sub1 k * 102)
        (encodeTrainer (mkPut old (resolvedSlots pf L)))) k
      (by rw [writeAt_length hwlen]; exact hle)
      (by rw [hchunk, decode_encode hwf]; exact hnz)
    rw [hchunk, decode_encode hwf] at h
    exact h
  have hdslen : (resolvedSlots pf L).length = L.length := by
    simp [resolvedSlots]
  refine ⟨by rw [hput], mkPut old (resolvedSlots pf L), by rw [hput]; exact hget,
    rfl, rfl, ?_⟩
  show TrainerRec.slots _ = _
  unfold TrainerRec.slots mkPut
  rw [show (6 : ℕ) - L.length = 6 - (resolvedSlots pf L).length from by rw [hdslen]]
  exact slot6_list (by rw [hdslen]; exact hL)

/-- Witness for C5: replacing the slots of trainer 1 with species 1 on a
one-record file. -/
theorem C5_witness :
    (PutTrainer (u16le 1 ++ List.replicate 100 0) (List.replicate 96 1) 1 [1]).1 =
      .ok () ∧
    ∃ t', GetTrainer
        (PutTrainer (u16le 1 ++ List.replicate 100 0) (List.replicate 96 1) 1 [1]).2
        1 = .ok t' ∧
      t'.ID = 1 ∧ t'.Name = List.replicate 16 0 ∧
      t'.slots = resolvedSlots (List.replicate 96 1) [1] ++
        List.replicate 5 zeroDisplay := by
  have h := C5_put_updates_slots (u16le 1 ++ List.replicate 100 0)
    (List.replicate 96 1) 1 [1]
    ⟨1, List.replicate 16 0, zeroDisplay, zeroDisplay, zeroDisplay, zeroDisplay,
     zeroDisplay, zeroDisplay⟩
    (by decide) (by decide) (by decide) (by decide) (by decide)
    (fun x hx => by
      simp at hx
      subst hx
      exact ⟨List.replicate 12 1, by decide⟩)
  obtain ⟨h1, t', h2, h3, h4, h5⟩ := h
  exact ⟨h1, t', h2, h3, h4, h5⟩

/-- C6 (amended): on a well-sized trainer file within id capacity, a
`PostTrainer` whose first six supplied species ids contain one that
fails to resolve returns the pokemon-not-found (`BAD_POST`) error with
the file unchanged, and likewise a `PutTrainer` on a live target;
species ids beyond the sixth are ignored by both operations. -/
theorem C6_failed_resolution_no_write (tf pf name : List ℕ) (k : ℕ)
    (L : List ℕ) :
    (tf.length % 102 = 0 → tf.length / 102 + 1 ≤ 65535 →
      (∃ x ∈ L.take 6, ∃ e, GetPokeName pf x = .error e) →
      (PostTrainer tf pf name L).1 = .error .pokeNotFound ∧
      (PostTrainer tf pf name L).2 = tf) ∧
    (∀ old, GetTrainer tf k = .ok old → tf.length % 102 = 0 →
      (∃ x ∈ L.take 6, ∃ e, GetPokeName pf x = .error e) →
      (PutTrainer tf pf k L).1 = .error .pokeNotFound ∧
      (PutTrainer tf pf k L).2 = tf) := by
  constructor
  · intro hsize hnext hfail
    have hrf := resolveSlots_fail hfail
    simp only [PostTrainer]
    rw [if_neg (by omega), if_neg (by omega), hrf]
    exact ⟨rfl, rfl⟩
  · intro old hlive hsize hfail
    have hrf := resolveSlots_fail hfail
    have hput : PutTrainer tf pf k L = (.error .pokeNotFound, tf) := by
      unfold PutTrainer
      rw [hlive]
      dsimp only
      rw [if_neg (by omega), hrf]
    rw [hput]
    exact ⟨rfl, rfl⟩

/-- Counterexample to C6 as stated: with seven supplied species ids
whose seventh fails to resolve, `PostTrainer` nevertheless succeeds and
appends a record — ids beyond the sixth are never resolved. -/
theorem C6_counterexample :
    (∃ x ∈ ([1, 1, 1, 1, 1, 1, 2] : List ℕ), ∃ e,
      GetPokeName (List.replicate 96 1) x = .error e) ∧
    (PostTrainer [] (List.replicate 96 1) [65] [1, 1, 1, 1, 1, 1, 2]).1 = .ok 1 ∧
    (PostTrainer [] (List.replicate 96 1) [65] [1, 1, 1, 1, 1, 1, 2]).2 ≠ [] := by
  refine ⟨⟨2, by decide, .eof, by decide⟩, by decide, by decide⟩

/-- Witness for the amended C6: a post and a put each supplying the
unresolvable species id 2 fail with pokemon-not-found and leave the file
unchanged. -/
theorem C6_witness :
    ((PostTrainer [] (List.replicate 96 1) [65] [2]).1 = .error .pokeNotFound ∧
      (PostTrainer [] (List.replicate 96 1) [65] [2]).2 = []) ∧
    ((PutTrainer (u16le 1 ++ List.replicate 100 0) (List.replicate 96 1) 1 [2]).1 =
        .error .pokeNotFound ∧
      (PutTrainer (u16le 1 ++ List.replicate 100 0) (List.replicate 96 1) 1 [2]).2 =
        u16le 1 ++ List.replicate 100 0) := by
  constructor
  · exact (C6_failed_resolution_no_write [] (List.replicate 96 1) [65] 1 [2]).1
      (by decide) (by decide) ⟨2, by decide, .eof, by decide⟩
  · exact (C6_failed_resolution_no_write (u16le 1 ++ List.replicate 100 0)
      (List.replicate 96 1) [65] 1 [2]).2
      ⟨1, List.replicate 16 0, zeroDisplay, zeroDisplay, zeroDisplay, zeroDisplay,
       zeroDisplay, zeroDisplay⟩
      (by decide) (by decide) ⟨2, by decide, .eof, by decide⟩

/-- The put handler never answers `CLIENT_REQ_INVALID`: every branch of
`process_req_put_trainer` after a successful regexp match replies
`SERVER_ERROR`, `BAD_PUT.<reason>`, `GOOD_PUT` or nothing. -/
theorem processPut_no_invalid (pf tf : List ℕ) (idTok : List Char)
    (ids : List (List Char)) :
    Reply.token "CLIENT_REQ_INVALID" ∉ (processPut pf tf idTok ids).1 := by
  unfold processPut
  by_cases h1 : (goAtoi idTok).2
  · rw [if_pos h1]
    simp
  · rw [if_neg h1]
    by_cases h2 : (ids.map goAtoi).any fun p => p.2
    · rw [if_pos h2]
      simp
    · rw [if_neg h2]
      dsimp only
      rcases hp : PutTrainer tf pf (u16cast (goAtoi idTok).1)
          (ids.map fun t => u16cast (goAtoi t).1) with ⟨r, tf2⟩
      rcases r with e | u
      · cases e <;> simp [errMsg]
      · dsimp only
        by_cases h3 : u16cast (goAtoi idTok).1 ≠ 0
        · rw [if_pos h3]
          simp
        · rw [if_neg h3]
          simp

/-- C7 (amended): a request frame matching none of the implementation's
request patterns (and not `EXIT`) is answered with exactly one
`CLIENT_REQ_INVALID` frame.  The frames the §4.E grammar excludes while
an implementation pattern accepts them are exactly the id-less
`POST_TRAINER` and id-less `PUT_TRAINER` frames, and neither is answered
with `CLIENT_REQ_INVALID`: an id-less `POST_TRAINER` whose name is at
most 15 bytes produces no reply frame at all, and a `PUT_TRAINER` frame
is dispatched to the put handler, none of whose replies is
`CLIENT_REQ_INVALID`. -/
theorem C7_invalid_request (pf tf : List ℕ) (log_data : List Char) (req : String) :
    (req ≠ "EXIT" → pokeCaps req = none → trainerCaps req = none →
      req ≠ "REQ_TRAINER_ALL" → postCaps req = none → putCaps req = none →
      delCaps req = none → logCaps req = none →
      handleRequest pf tf log_data req = ([.token "CLIENT_REQ_INVALID"], tf)) ∧
    (∀ name, req ≠ "EXIT" → pokeCaps req = none → trainerCaps req = none →
      req ≠ "REQ_TRAINER_ALL" → postCaps req = some (name, []) →
      (strBytes name).length ≤ 15 →
      handleRequest pf tf log_data req = ([], tf)) ∧
    (∀ idTok ids, req ≠ "EXIT" → pokeCaps req = none → trainerCaps req = none →
      req ≠ "REQ_TRAINER_ALL" → postCaps req = none →
      putCaps req = some (idTok, ids) →
      handleRequest pf tf log_data req = processPut pf tf idTok ids ∧
      Reply.token "CLIENT_REQ_INVALID" ∉ (handleRequest pf tf log_data req).1) ∧
    (specGrammarMatch req = false → req ≠ "EXIT" →
      (pokeCaps req = none ∧ trainerCaps req = none ∧
        req ≠ "REQ_TRAINER_ALL" ∧ postCaps req = none ∧ putCaps req = none ∧
        delCaps req = none ∧ logCaps req = none) ∨
      (∃ name, postCaps req = some (name, [])) ∨
      (∃ idTok, putCaps req = some (idTok, []))) := by
  refine ⟨?_, ?_, ?_, ?_⟩
  · intro h0 h1 h2 h3 h4 h5 h6 h7
    unfold handleRequest
    rw [if_neg h0, h1, h2, if_neg h3, h4, h5, h6, h7]
  · intro name h0 h1 h2 h3 h4 hlen
    unfold handleRequest
    rw [if_neg h0, h1, h2, if_neg h3, h4]
    dsimp only
    unfold processPost
    rw [if_neg (by omega)]
    rfl
  · intro idTok ids h0 h1 h2 h3 h4 h5
    have hdisp : handleRequest pf tf log_data req = processPut pf tf idTok ids := by
      unfold handleRequest
      rw [if_neg h0, h1, h2, if_neg h3, h4, h5]
    refine ⟨hdisp, ?_⟩
    rw [hdisp]
    exact processPut_no_invalid pf tf idTok ids
  · intro hspec hexit
    unfold specGrammarMatch at hspec
    simp only [Bool.or_eq_false_iff] at hspec
    obtain ⟨⟨⟨⟨⟨⟨⟨h1, h2⟩, h3⟩, h4⟩, h5⟩, h6⟩, h7⟩, h8⟩ := hspec
    rcases hpost : postCaps req with _ | nameids
    · rcases hput : putCaps req with _ | ididx
      · refine Or.inl ⟨?_, ?_, ?_, rfl, rfl, ?_, ?_⟩
        · rcases hx : pokeCaps req with _ | v
          · rfl
          · rw [hx] at h1
            simp at h1
        · rcases hx : trainerCaps req with _ | v
          · rfl
          · rw [hx] at h2
            simp at h2
        · simpa using h3
        · rcases hx : delCaps req with _ | v
          · rfl
          · rw [hx] at h6
            simp at h6
        · rcases hx : logCaps req with _ | v
          · rfl
          · rw [hx] at h7
            simp at h7
      · obtain ⟨idTok, ids⟩ := ididx
        rw [hput] at h5
        simp at h5
        subst h5
        exact Or.inr (Or.inr ⟨idTok, rfl⟩)
    · obtain ⟨name, ids⟩ := nameids
      rw [hpost] at h4
      simp at h4
      subst h4
      exact Or.inr (Or.inl ⟨name, rfl⟩)

/-- Counterexample to C7 as stated: the frames `POST_TRAINER Ash` and
`PUT_TRAINER 5` match no command of the §4.E grammar (each requires at
least one species id), yet the session answers the first with no frame
at all and the second with `BAD_PUT.trainer ID not found` — in neither
case one `CLIENT_REQ_INVALID` frame. -/
theorem C7_counterexample :
    specGrammarMatch "POST_TRAINER Ash" = false ∧
    handleRequest [] [] [] "POST_TRAINER Ash" = ([], []) ∧
    specGrammarMatch "PUT_TRAINER 5" = false ∧
    handleRequest [] [] [] "PUT_TRAINER 5" =
      ([.token "BAD_PUT.trainer ID not found"], []) := by
  refine ⟨by decide, by decide, by decide, by decide⟩

/-- Witness for the amended C7: `HELLO` answered by exactly one
`CLIENT_REQ_INVALID`; the id-less `POST_TRAINER Ash` answered by
nothing; the id-less `PUT_TRAINER 5` dispatched to the put handler with
no `CLIENT_REQ_INVALID` reply; and the grammar-gap characterization
instantiated at `PUT_TRAINER 5`. -/
theorem C7_witness :
    handleRequest [] [] [] "HELLO" = ([.token "CLIENT_REQ_INVALID"], []) ∧
    handleRequest [] [] [] "POST_TRAINER Ash" = ([], []) ∧
    (handleRequest [] [] [] "PUT_TRAINER 5" =
        processPut [] [] (['5'] : List Char) [] ∧
      Reply.token "CLIENT_REQ_INVALID" ∉
        (handleRequest [] [] [] "PUT_TRAINER 5").1) ∧
    ((pokeCaps "PUT_TRAINER 5" = none ∧ trainerCaps "PUT_TRAINER 5" = none ∧
        "PUT_TRAINER 5" ≠ "REQ_TRAINER_ALL" ∧ postCaps "PUT_TRAINER 5" = none ∧
        putCaps "PUT_TRAINER 5" = none ∧ delCaps "PUT_TRAINER 5" = none ∧
        logCaps "PUT_TRAINER 5" = none) ∨
      (∃ name, postCaps "PUT_TRAINER 5" = some (name, [])) ∨
      (∃ idTok, putCaps "PUT_TRAINER 5" = some (idTok, []))) := by
  refine ⟨?_, ?_, ?_, ?_⟩
  · exact (C7_invalid_request [] [] [] "HELLO").1 (by decide) (by decide)
      (by decide) (by decide) (by decide) (by decide) (by decide) (by decide)
  · exact (C7_invalid_request [] [] [] "POST_TRAINER Ash").2.1 "Ash".data
      (by decide) (by decide) (by decide) (by decide) (by decide) (by decide)
  · exact (C7_invalid_request [] [] [] "PUT_TRAINER 5").2.2.1 (['5'] : List Char)
      [] (by decide) (by decide) (by decide) (by decide) (by decide) (by decide)
  · exact (C7_invalid_request [] [] [] "PUT_TRAINER 5").2.2.2 (by decide)
      (by decide)

/-- C8 (amended): a species id with no byte available at its offset
makes `GetPokemon` fail with `io.EOF` and the session reply
`OUT_OF_BOUNDS`; a species record only partially contained in the file
makes `GetPokemon` fail with `io.ErrUnexpectedEOF`, which the session
maps to `SERVER_ERROR`, not `OUT_OF_BOUNDS`. -/
theorem C8_short_read (pf : List ℕ) (id : ℕ) :
    (pf.length ≤ u16sub1 id * 96 →
      GetPokemon pf id = .error .eof ∧
      processGetPoke pf id = [.token "OUT_OF_BOUNDS"]) ∧
    (u16sub1 id * 96 < pf.length → pf.length < u16sub1 id * 96 + 96 →
      GetPokemon pf id = .error .unexpEof ∧
      processGetPoke pf id = [.token "SERVER_ERROR"]) := by
  constructor
  · intro h
    have hg : GetPokemon pf id = .error .eof := by
      unfold GetPokemon readExact
      rw [if_neg (by omega), if_pos (by omega)]
      rfl
    refine ⟨hg, ?_⟩
    unfold processGetPoke
    rw [hg]
  · intro h1 h2
    have hg : GetPokemon pf id = .error .unexpEof := by
      unfold GetPokemon readExact
      rw [if_neg (by omega), if_neg (by omega)]
      rfl
    refine ⟨hg, ?_⟩
    unfold processGetPoke
    rw [hg]

/-- Counterexample to C8 as stated: a 50-byte species file holds species
1 only partially; `GetPokemon` returns `io.ErrUnexpectedEOF` and the
session replies `SERVER_ERROR`, not `OUT_OF_BOUNDS`. -/
theorem C8_counterexample :
    (List.replicate 50 7 : List ℕ).length < 96 ∧
    GetPokemon (List.replicate 50 7) 1 = .error .unexpEof ∧
    processGetPoke (List.replicate 50 7) 1 = [.token "SERVER_ERROR"] ∧
    processGetPoke (List.replicate 50 7) 1 ≠ [.token "OUT_OF_BOUNDS"] := by
  refine ⟨by decide, by decide, by decide, by decide⟩

/-- Witness for the amended C8 at an empty species file (EOF) and a
50-byte species file (partial read). -/
theorem C8_witness :
    (GetPokemon [] 1 = .error .eof ∧
      processGetPoke [] 1 = [.token "OUT_OF_BOUNDS"]) ∧
    (GetPokemon (List.replicate 50 7) 1 = .error .unexpEof ∧
      processGetPoke (List.replicate 50 7) 1 = [.token "SERVER_ERROR"]) :=
  ⟨(C8_short_read [] 1).1 (by decide),
   (C8_short_read (List.replicate 50 7) 1).2 (by decide) (by decide)⟩

/-- C9 (amended): for every message shorter than `2^32` bytes,
`ReallyWrite` emits exactly the 4-byte big-endian encoding of the length
followed by the message bytes, and `ReallyRead` applied to a stream
beginning with that byte sequence returns the message and leaves the
rest of the stream; at length `2^32` and beyond the `uint32` prefix
truncates and the round trip fails. -/
theorem C9_framing_roundtrip (msg rest : List ℕ) (h : msg.length < 2 ^ 32) :
    ReallyWrite msg = be32 msg.length ++ msg ∧
    ReallyRead (ReallyWrite msg ++ rest) = .ok (msg, rest) := by
  have hmod : msg.length % 2 ^ 32 = msg.length := Nat.mod_eq_of_lt h
  have hw : ReallyWrite msg = be32 msg.length ++ msg := by
    unfold ReallyWrite
    rw [hmod]
  refine ⟨hw, ?_⟩
  rw [hw, List.append_assoc]
  unfold ReallyRead
  have hbe : (be32 msg.length).length = 4 := by
    simp [be32]
  rw [if_neg (by simp [be32]), List.take_left' hbe, List.drop_left' hbe]
  have hval : be32val (be32 msg.length) = msg.length := by
    unfold be32val be32
    simp [List.getD]
    omega
  rw [hval, if_neg (by simp), List.take_left, List.drop_left]

/-- Reading back a frame whose message length is exactly `2^32`: the
`uint32` prefix truncates to zero, so the read yields the empty
message. -/
theorem reallyRead_truncated {M : List ℕ} (hM : M.length = 2 ^ 32) :
    ReallyRead (ReallyWrite M) = .ok ([], M) := by
  have hw : ReallyWrite M = [0, 0, 0, 0] ++ M := by
    unfold ReallyWrite
    rw [hM]
    norm_num [be32]
  rw [hw]
  unfold ReallyRead
  rw [if_neg (by simp),
    List.take_left' (show ([0, 0, 0, 0] : List ℕ).length = 4 from rfl),
    List.drop_left' (show ([0, 0, 0, 0] : List ℕ).length = 4 from rfl)]
  have hval : be32val [0, 0, 0, 0] = 0 := by norm_num [be32val]
  rw [hval, if_neg (by simp)]
  rw [List.take_zero, List.drop_zero]

/-- Counterexample to C9 as stated: a message of exactly `2^32` bytes is
framed with a truncated zero length prefix, so reading the frame back
returns the empty message, not the original. -/
theorem C9_counterexample :
    ReallyRead (ReallyWrite (List.replicate (2 ^ 32) 1)) =
      .ok ([], List.replicate (2 ^ 32) 1) ∧
    ReallyRead (ReallyWrite (List.replicate (2 ^ 32) 1)) ≠
      .ok (List.replicate (2 ^ 32) 1, []) := by
  have h2 := reallyRead_truncated (List.length_replicate (2 ^ 32) 1)
  refine ⟨h2, ?_⟩
  rw [h2]
  intro hc
  have h3 := Except.ok.inj hc
  have h5 := congrArg (fun p : List ℕ × List ℕ => p.1.length) h3
  have h6 : (0 : ℕ) = (List.replicate (2 ^ 32) 1).length := h5
  rw [List.length_replicate] at h6
  exact absurd h6 (by norm_num)

/-- Witness for the amended C9 at a concrete three-byte message followed
by two stream bytes. -/
theorem C9_witness :
    ReallyWrite [7, 8, 9] = be32 3 ++ [7, 8, 9] ∧
    ReallyRead (ReallyWrite [7, 8, 9] ++ [4, 5]) = .ok ([7, 8, 9], [4, 5]) := by
  have h := C9_framing_roundtrip [7, 8, 9] [4, 5] (by norm_num)
  exact ⟨h.1, h.2⟩
